import Mathlib

/-!
Verification development for the statistical analysis engine of the
bench-worker-fly repository.

The analysis code (the analyze-benchmark script and the benchmark drivers) is
written in TypeScript and computes over IEEE-754 double values.  We embed it
shallowly:

* JavaScript numbers are modelled by `JSVal`: a finite real number
  (`JSVal.fin`), positive or negative infinity, or NaN, with arithmetic
  following the IEEE-754 special-value rules the scripts can actually reach
  (division by zero, NaN propagation, and so on).  Finite-value rounding is
  idealised to exact real arithmetic, the standard idealisation for a
  floating-point shallow embedding.  The zeros of the model are unsigned;
  the scripts never produce a negative zero.
* strings are modelled as `List Char`; the CSV writer and the CSV parser are
  embedded character by character.
* the descriptive statistics function over lists of plain numbers
  (`calculateStats`) is embedded over `ℝ`, since on finite inputs the script
  computes these real-number formulas with no special values involved.

Definitions come first, theorems afterwards.
-/

/-- Model of a JavaScript number: a finite real, an infinity, or NaN. -/
inductive JSVal where
  | fin (x : ℝ)
  | posInf
  | negInf
  | nan
deriving Inhabited

namespace JSVal

/-- IEEE addition on JS numbers. -/
noncomputable def jadd : JSVal → JSVal → JSVal
  | nan, _ => nan
  | _, nan => nan
  | fin x, fin y => fin (x + y)
  | fin _, posInf => posInf
  | posInf, fin _ => posInf
  | fin _, negInf => negInf
  | negInf, fin _ => negInf
  | posInf, posInf => posInf
  | negInf, negInf => negInf
  | posInf, negInf => nan
  | negInf, posInf => nan

/-- IEEE negation on JS numbers. -/
noncomputable def jneg : JSVal → JSVal
  | nan => nan
  | fin x => fin (-x)
  | posInf => negInf
  | negInf => posInf

/-- IEEE multiplication on JS numbers. -/
noncomputable def jmul : JSVal → JSVal → JSVal
  | nan, _ => nan
  | _, nan => nan
  | fin x, fin y => fin (x * y)
  | fin x, posInf => if x = 0 then nan else if 0 < x then posInf else negInf
  | posInf, fin x => if x = 0 then nan else if 0 < x then posInf else negInf
  | fin x, negInf => if x = 0 then nan else if 0 < x then negInf else posInf
  | negInf, fin x => if x = 0 then nan else if 0 < x then negInf else posInf
  | posInf, posInf => posInf
  | posInf, negInf => negInf
  | negInf, posInf => negInf
  | negInf, negInf => posInf

/-- IEEE division on JS numbers.  With unsigned zeros, `x / 0` is `+∞` for
positive `x`, `-∞` for negative `x` and NaN for `x = 0`. -/
noncomputable def jdiv : JSVal → JSVal → JSVal
  | nan, _ => nan
  | _, nan => nan
  | fin x, fin y =>
      if y = 0 then (if x = 0 then nan else if 0 < x then posInf else negInf)
      else fin (x / y)
  | fin _, posInf => fin 0
  | fin _, negInf => fin 0
  | posInf, fin y => if 0 ≤ y then posInf else negInf
  | negInf, fin y => if 0 ≤ y then negInf else posInf
  | posInf, posInf => nan
  | posInf, negInf => nan
  | negInf, posInf => nan
  | negInf, negInf => nan

noncomputable instance : Add JSVal := ⟨jadd⟩
noncomputable instance : Neg JSVal := ⟨jneg⟩

/-- JS subtraction: IEEE subtraction coincides with adding the negation. -/
noncomputable instance : Sub JSVal := ⟨fun a b => jadd a (jneg b)⟩
noncomputable instance : Mul JSVal := ⟨jmul⟩
noncomputable instance : Div JSVal := ⟨jdiv⟩

/-- Model of Math.abs. -/
noncomputable def jabs : JSVal → JSVal
  | nan => nan
  | fin x => fin |x|
  | posInf => posInf
  | negInf => posInf

/-- Model of Math.sqrt: NaN on negative and NaN arguments. -/
noncomputable def jsqrt : JSVal → JSVal
  | nan => nan
  | posInf => posInf
  | negInf => nan
  | fin x => if x < 0 then nan else fin (Real.sqrt x)

/-- Model of Math.exp. -/
noncomputable def jexp : JSVal → JSVal
  | nan => nan
  | posInf => posInf
  | negInf => fin 0
  | fin x => fin (Real.exp x)

/-- Model of Math.ceil. -/
noncomputable def jceil : JSVal → JSVal
  | nan => nan
  | posInf => posInf
  | negInf => negInf
  | fin x => fin (Int.ceil x)

/-- Model of Math.pow with exponent 2, which agrees with squaring on every
JS number (including NaN and the infinities). -/
noncomputable def jpow2 (a : JSVal) : JSVal := a * a

/-- Model of the JS comparison x < y as a boolean; every comparison
involving NaN is false. -/
noncomputable def jltB : JSVal → JSVal → Bool
  | nan, _ => false
  | _, nan => false
  | fin x, fin y => decide (x < y)
  | fin _, posInf => true
  | fin _, negInf => false
  | posInf, fin _ => false
  | negInf, fin _ => true
  | posInf, posInf => false
  | negInf, negInf => false
  | negInf, posInf => true
  | posInf, negInf => false

/-- Model of the JS comparison x <= y as a boolean; every comparison
involving NaN is false. -/
noncomputable def jleB : JSVal → JSVal → Bool
  | nan, _ => false
  | _, nan => false
  | fin x, fin y => decide (x ≤ y)
  | fin _, posInf => true
  | fin _, negInf => false
  | posInf, fin _ => false
  | negInf, fin _ => true
  | posInf, posInf => true
  | negInf, negInf => true
  | negInf, posInf => true
  | posInf, negInf => false

end JSVal

open JSVal in
/-- Result record of welchTTest (analyze-benchmark script, line 108). -/
structure TTestResult where
  t : JSVal
  df : JSVal
  pValue : JSVal

open JSVal in
/-- Embedding of normalCDF (analyze-benchmark script, lines 132-147), the
Abramowitz-Stegun rational approximation of the standard normal CDF,
computed over JS numbers. -/
noncomputable def normalCDFJ (x : JSVal) : JSVal :=
  let sign : JSVal := if jltB x (fin 0) then fin (-1) else fin 1
  let x1 := jabs x / jsqrt (fin 2)
  let t := fin 1 / (fin 1 + fin 0.3275911 * x1)
  let y := fin 1 -
    ((((fin 1.061405429 * t + fin (-1.453152027)) * t + fin 1.421413741) * t +
        fin (-0.284496736)) * t + fin 0.254829592) * t * jexp (-x1 * x1)
  fin 0.5 * (fin 1 + sign * y)

open JSVal in
/-- The sum expression group.reduce((a, b) => a + b, 0) used by welchTTest. -/
noncomputable def jsSum (l : List JSVal) : JSVal := l.foldl (· + ·) (fin 0)

open JSVal in
/-- The mean expression group.reduce((a, b) => a + b, 0) / n of welchTTest. -/
noncomputable def jsMean (l : List JSVal) : JSVal := jsSum l / fin (l.length : ℝ)

open JSVal in
/-- The sample variance expression of welchTTest (lines 115-116):
group.reduce((sum, val) => sum + Math.pow(val - mean, 2), 0) / (n - 1). -/
noncomputable def jsVar (l : List JSVal) : JSVal :=
  l.foldl (fun s v => s + jpow2 (v - jsMean l)) (fin 0) / (fin (l.length : ℝ) - fin 1)

open JSVal in
/-- Embedding of welchTTest (analyze-benchmark script, lines 108-129). -/
noncomputable def welchTTest (group1 group2 : List JSVal) : TTestResult :=
  let v1 := jsVar group1 / fin (group1.length : ℝ)
  let v2 := jsVar group2 / fin (group2.length : ℝ)
  let se := jsqrt (v1 + v2)
  let t := (jsMean group1 - jsMean group2) / se
  let df := jpow2 (v1 + v2) /
    (jpow2 v1 / (fin (group1.length : ℝ) - fin 1) +
      jpow2 v2 / (fin (group2.length : ℝ) - fin 1))
  let pValue := fin 2 * (fin 1 - normalCDFJ (jabs t))
  ⟨t, df, pValue⟩

open JSVal in
/-- Embedding of calculateRequiredSampleSize (analyze-benchmark script,
lines 100-105): ceil(2 * (1.96 + 0.84)^2 * std^2 / minDetectableDiff^2). -/
noncomputable def calculateRequiredSampleSize (std minDetectableDiff : JSVal) : JSVal :=
  jceil (fin 2 * jpow2 (fin 1.96 + fin 0.84) * jpow2 std / jpow2 minDetectableDiff)

/-- Spec-level mean of a list of reals, matching the reduce-based mean of the
source: reduce((a, b) => a + b, 0) / n. -/
noncomputable def meanR (l : List ℝ) : ℝ := l.foldl (· + ·) 0 / l.length

/-- Spec-level sample variance with divisor n - 1, matching the source. -/
noncomputable def varR (l : List ℝ) : ℝ :=
  l.foldl (fun s v => s + (v - meanR l) ^ 2) 0 / (l.length - 1)

/-- Real-number form of the Abramowitz-Stegun approximation computed by
normalCDF on finite arguments. -/
noncomputable def normalCDFR (x : ℝ) : ℝ :=
  let sign : ℝ := if x < 0 then -1 else 1
  let x1 := |x| / Real.sqrt 2
  let t := 1 / (1 + 0.3275911 * x1)
  let y := 1 -
    ((((1.061405429 * t + -1.453152027) * t + 1.421413741) * t +
        -0.284496736) * t + 0.254829592) * t * Real.exp (-x1 * x1)
  0.5 * (1 + sign * y)

/-- Summary record returned by calculateStats (analyze-benchmark script,
lines 43-98). -/
structure StatsR where
  n : ℕ
  mean : ℝ
  std : ℝ
  median : ℝ
  min : ℝ
  max : ℝ
  q1 : ℝ
  q3 : ℝ
  iqr : ℝ
  cv : ℝ
  se : ℝ
  ci95Lower : ℝ
  ci95Upper : ℝ
deriving Inhabited

/-- Embedding of calculateStats (analyze-benchmark script, lines 43-98) over
real-valued inputs.  The sort((a, b) => a - b) of the source is an ascending
numeric sort, modelled by insertion sort; all indices accessed by the source
are in range, so the default value of getD is never read. -/
noncomputable def calculateStats (values : List ℝ) : StatsR :=
  if values.length = 0 then ⟨0, 0, 0, 0, 0, 0, 0, 0, 0, 0, 0, 0, 0⟩
  else
    let n := values.length
    let sorted := List.insertionSort (· ≤ ·) values
    let mean := values.foldl (· + ·) 0 / (n : ℝ)
    let variance := if 1 < n then values.foldl (fun s v => s + (v - mean) ^ 2) 0 / ((n : ℝ) - 1) else 0
    let std := Real.sqrt variance
    let median := if n % 2 = 0 then (sorted.getD (n / 2 - 1) 0 + sorted.getD (n / 2) 0) / 2
      else sorted.getD (n / 2) 0
    let q1 := sorted.getD ⌊(n : ℝ) * 0.25⌋₊ 0
    let q3 := sorted.getD ⌊(n : ℝ) * 0.75⌋₊ 0
    let cv := if 0 < mean then std / mean * 100 else 0
    let se := std / Real.sqrt (n : ℝ)
    ⟨n, mean, std, median, sorted.getD 0 0, sorted.getD (n - 1) 0, q1, q3, q3 - q1, cv, se,
      mean - 1.96 * se, mean + 1.96 * se⟩

/-- Numeric CSV cell as produced by parseCSV: null (empty field), NaN
(parseInt failed), or a parsed integer. -/
inductive CsvNum where
  | nullV
  | nanV
  | intVal (z : ℤ)
deriving DecidableEq

/-- Parsed record of the analyze-benchmark script (interface BenchmarkRow). -/
structure BenchmarkRow where
  timestamp : List Char
  facilitator : List Char
  network : List Char
  sampleNum : CsvNum
  facilitationMs : CsvNum
  roundtripMs : CsvNum
  success : Bool
  error : List Char
deriving DecidableEq

/-- In-memory record of the benchmark driver scripts (interface
BenchmarkResult): numeric fields are non-negative integers or absent. -/
structure BenchmarkResult where
  timestamp : List Char
  facilitator : List Char
  network : List Char
  sampleNum : ℕ
  facilitationMs : Option ℕ
  roundtripMs : Option ℕ
  success : Bool
  error : List Char
deriving DecidableEq

/-- The filter data.filter(r => r.success) of analyzeData (line 156). -/
def successfulData (rows : List BenchmarkRow) : List BenchmarkRow :=
  rows.filter (·.success)

/-- Total records reported as Successful by analyzeData (line 159). -/
def successCount (rows : List BenchmarkRow) : ℕ := (successfulData rows).length

/-- Helper for first-occurrence deduplication with an accumulator of
already-seen keys. -/
def uniqueFirstAux (seen : List (List Char)) : List (List Char) → List (List Char)
  | [] => []
  | x :: xs => if x ∈ seen then uniqueFirstAux seen xs else x :: uniqueFirstAux (x :: seen) xs

/-- Model of [...new Set(list)] (line 163): first-occurrence order
deduplication. -/
def uniqueFirst (l : List (List Char)) : List (List Char) := uniqueFirstAux [] l

/-- The facilitators analyzeData iterates over (line 163): the distinct
facilitator names of the successful records. -/
def facilitatorsOf (rows : List BenchmarkRow) : List (List Char) :=
  uniqueFirst ((successfulData rows).map (·.facilitator))

/-- The per-facilitator record filter of analyzeData (line 172). -/
def facilitatorRows (rows : List BenchmarkRow) (f : List Char) : List BenchmarkRow :=
  (successfulData rows).filter (fun r => decide (r.facilitator = f))

/-- The array facilitatorData.map(r => r.facilitationMs!) of analyzeData
(line 173): the non-null assertion keeps null cells in the array. -/
def facilitationTimesOf (rows : List BenchmarkRow) (f : List Char) : List CsvNum :=
  (facilitatorRows rows f).map (·.facilitationMs)

/-- The array facilitatorData.map(r => r.roundtripMs!) of analyzeData
(line 174). -/
def roundtripTimesOf (rows : List BenchmarkRow) (f : List Char) : List CsvNum :=
  (facilitatorRows rows f).map (·.roundtripMs)

/-- Numeric value of a CSV cell as consumed by JS arithmetic: null coerces
to +0 in every arithmetic operation the analysis performs, NaN stays NaN. -/
noncomputable def csvToJS : CsvNum → JSVal
  | .nullV => .fin 0
  | .nanV => .nan
  | .intVal z => .fin (z : ℝ)

/-- The data array stored for a facilitator and fed to welchTTest
(lines 182 and 212-215), with cells coerced as JS arithmetic does. -/
noncomputable def dataOf (rows : List BenchmarkRow) (f : List Char) : List JSVal :=
  (facilitationTimesOf rows f).map csvToJS

/-- The unordered index pairs (i, j) with i < j visited by the nested loops
of analyzeData (lines 208-209), in visit order. -/
def allPairs {α : Type} : List α → List (α × α)
  | [] => []
  | x :: xs => xs.map (fun y => (x, y)) ++ allPairs xs

/-- The pairwise comparisons computed by analyzeData (lines 208-235): every
unordered pair of facilitators with the welchTTest result on their
facilitation-time arrays. -/
noncomputable def pairsOf (rows : List BenchmarkRow) : List (List Char × List Char × TTestResult) :=
  (allPairs (facilitatorsOf rows)).map
    (fun p => (p.1, p.2, welchTTest (dataOf rows p.1) (dataOf rows p.2)))

/-- Ranking comparator of analyzeData (line 267):
sort((a, b) => a.stats.mean - b.stats.mean).  For the facilitators being
ranked the stats mean is the fold-mean of the facilitation values; a
comparator outcome involving NaN is engine-defined in JS, and the model
keeps insertion order in that case. -/
noncomputable def rankRel (rows : List BenchmarkRow) (f g : List Char) : Prop :=
  JSVal.jleB (jsMean (dataOf rows f)) (jsMean (dataOf rows g)) = true

noncomputable instance (rows : List BenchmarkRow) : DecidableRel (rankRel rows) :=
  fun _ _ => instDecidableEqBool _ _

/-- The ranking of analyzeData (lines 265-267): facilitators sorted
ascending by mean facilitation time. -/
noncomputable def rankingOf (rows : List BenchmarkRow) : List (List Char) :=
  List.insertionSort (rankRel rows) (facilitatorsOf rows)

/-- Whitespace test of the model of String.prototype.trim: the ECMAScript
WhiteSpace and LineTerminator code points (tab, LF, VT, FF, CR, space,
NBSP, BOM, the Unicode space separators and the line and paragraph
separators). -/
def isWsC (c : Char) : Bool :=
  c = ' ' || c = '\t' || c = '\n' || c = '\r' ||
    c.val = 0x000B || c.val = 0x000C || c.val = 0x00A0 || c.val = 0xFEFF ||
    c.val = 0x1680 || (0x2000 ≤ c.val && c.val ≤ 0x200A) ||
    c.val = 0x2028 || c.val = 0x2029 || c.val = 0x202F || c.val = 0x205F ||
    c.val = 0x3000

/-- Model of content.trim(): strip leading and trailing whitespace. -/
def trimC (s : List Char) : List Char :=
  ((s.dropWhile isWsC).reverse.dropWhile isWsC).reverse

/-- Model of String.prototype.split with a single-character separator. -/
def splitOnC (c : Char) : List Char → List (List Char)
  | [] => [[]]
  | x :: xs =>
      let r := splitOnC c xs
      if x = c then [] :: r else (x :: r.headD []) :: r.tail

/-- Model of Array.prototype.join with a single-character separator. -/
def joinC (c : Char) : List (List Char) → List Char
  | [] => []
  | [l] => l
  | l :: ls => l ++ c :: joinC c ls

/-- Decimal digit character for a digit value; only called with d < 10. -/
def digitChar : ℕ → Char
  | 0 => '0'
  | 1 => '1'
  | 2 => '2'
  | 3 => '3'
  | 4 => '4'
  | 5 => '5'
  | 6 => '6'
  | 7 => '7'
  | 8 => '8'
  | _ => '9'

/-- Fuelled decimal printer; fuel bounds the number division chain. -/
def natToCharsAux : ℕ → ℕ → List Char
  | 0, _ => []
  | fuel + 1, n =>
      if n < 10 then [digitChar n]
      else natToCharsAux fuel (n / 10) ++ [digitChar (n % 10)]

/-- Model of JS number-to-string conversion for non-negative integers
(canonical decimal notation). -/
def natToChars (n : ℕ) : List Char := natToCharsAux (n + 1) n

/-- Numeric value of a digit character. -/
def charVal (c : Char) : ℕ := c.toNat - Char.toNat '0'

/-- Value of a list of decimal digit characters. -/
def digitsToNat (l : List Char) : ℕ := l.foldl (fun a c => 10 * a + charVal c) 0

/-- Model of parseInt(s, 10): skip leading whitespace, read an optional
sign and then the longest digit prefix; NaN when there are no digits. -/
def jsParseInt (s : List Char) : CsvNum :=
  match s.dropWhile isWsC with
  | [] => .nanV
  | c :: rest =>
      if c = '-' then
        (let ds := rest.takeWhile Char.isDigit
         if ds = [] then .nanV else .intVal (-(digitsToNat ds : ℤ)))
      else if c = '+' then
        (let ds := rest.takeWhile Char.isDigit
         if ds = [] then .nanV else .intVal (digitsToNat ds : ℤ))
      else
        (let ds := (c :: rest).takeWhile Char.isDigit
         if ds = [] then .nanV else .intVal (digitsToNat ds : ℤ))

/-- The string "true" as written for a successful record. -/
def trueChars : List Char := "true".data

/-- Model of JS boolean-to-string conversion. -/
def boolChars : Bool → List Char
  | true => "true".data
  | false => "false".data

/-- Model of value ?? "" for an optional numeric field. -/
def optNatChars : Option ℕ → List Char
  | none => []
  | some k => natToChars k

/-- The eight cells written for one record by resultToCsvRow. -/
def rowFields (r : BenchmarkResult) : List (List Char) :=
  [r.timestamp, r.facilitator, r.network, natToChars r.sampleNum,
    optNatChars r.facilitationMs, optNatChars r.roundtripMs,
    boolChars r.success, r.error]

/-- Embedding of resultToCsvRow (benchmark scripts): the eight fields joined
with commas, terminated by a newline. -/
def resultToCsvRow (r : BenchmarkResult) : List Char :=
  joinC ',' (rowFields r) ++ ['\n']

/-- The CSV_HEADER line of the benchmark scripts (without its newline). -/
def headerChars : List Char :=
  "timestamp,facilitator,network,sample_num,facilitation_ms,roundtrip_ms,success,error".data

/-- The file contents produced by a benchmark run: the header line followed
by one CSV row per record. -/
def csvContent (rs : List BenchmarkResult) : List Char :=
  (headerChars ++ ['\n']) ++ (rs.map resultToCsvRow).flatten

/-- Embedding of one row mapping of parseCSV (analyze-benchmark script,
lines 28-39). -/
def parseLine (line : List Char) : BenchmarkRow :=
  let v := splitOnC ',' line
  { timestamp := v.getD 0 []
    facilitator := v.getD 1 []
    network := v.getD 2 []
    sampleNum := jsParseInt (v.getD 3 [])
    facilitationMs := if v.getD 4 [] = [] then .nullV else jsParseInt (v.getD 4 [])
    roundtripMs := if v.getD 5 [] = [] then .nullV else jsParseInt (v.getD 5 [])
    success := decide (v.getD 6 [] = trueChars)
    error := v.getD 7 [] }

/-- Embedding of parseCSV (analyze-benchmark script, lines 23-41): trim the
content, split into lines, drop the header and parse each record line. -/
def parseCSV (content : List Char) : List BenchmarkRow :=
  ((splitOnC '\n' (trimC content)).drop 1).map parseLine

/-- The parsed row a faithful round trip is expected to produce for a
written record. -/
def parsedOf (r : BenchmarkResult) : BenchmarkRow :=
  { timestamp := r.timestamp
    facilitator := r.facilitator
    network := r.network
    sampleNum := .intVal r.sampleNum
    facilitationMs := match r.facilitationMs with
      | none => .nullV
      | some k => .intVal k
    roundtripMs := match r.roundtripMs with
      | none => .nullV
      | some k => .intVal k
    success := r.success
    error := r.error }

/-- The separator substitution applied by the collection scripts before
writing: errorMsg.replace(/,/g, ";"). -/
def substComma (s : List Char) : List Char :=
  s.map (fun c => if c = ',' then ';' else c)

/-- Cell content restrictions under which a written record survives the
seven-column format: no separator and no line terminator inside a cell. -/
def okStr (s : List Char) : Prop := ∀ c ∈ s, c ≠ ',' ∧ c ≠ '\n'

/-- Convenience constructor for concrete parsed rows used as test batches. -/
def mkRow (f : List Char) (s : Bool) (fm rt : CsvNum) : BenchmarkRow :=
  ⟨"t".data, f, "base".data, .intVal 1, fm, rt, s, []⟩

/-- Batch with a facilitator A all of whose samples failed. -/
def exC3 : List BenchmarkRow :=
  [mkRow "A".data false .nullV .nullV,
    mkRow "B".data true (.intVal 20) (.intVal 60),
    mkRow "B".data true (.intVal 30) (.intVal 70)]

/-- Second batch with a facilitator A all of whose samples failed. -/
def exC3w : List BenchmarkRow :=
  [mkRow "A".data false .nullV .nullV,
    mkRow "A".data false .nullV .nullV,
    mkRow "B".data true (.intVal 25) (.intVal 65)]

/-- Batch with a successful sample of facilitator A whose facilitation time
is absent, next to a complete successful sample. -/
def exC4 : List BenchmarkRow :=
  [mkRow "A".data true .nullV (.intVal 50),
    mkRow "A".data true (.intVal 100) (.intVal 60)]

/-- Batch where facilitator A has a single successful sample and facilitator
B has two. -/
def exC5 : List BenchmarkRow :=
  [mkRow "A".data true (.intVal 10) (.intVal 40),
    mkRow "B".data true (.intVal 20) (.intVal 60),
    mkRow "B".data true (.intVal 30) (.intVal 70)]

/-- Second batch with a facilitator pair where one side has a single value. -/
def exC5w : List BenchmarkRow :=
  [mkRow "A".data true (.intVal 5) (.intVal 40),
    mkRow "A".data true (.intVal 7) (.intVal 45),
    mkRow "B".data true (.intVal 20) (.intVal 60)]

/-- Record whose error text contains the separator character. -/
def exC9 : BenchmarkResult :=
  ⟨"T".data, "A".data, "base".data, 1, some 5, some 7, true, "x,y".data⟩

/-- Well-formed record with an absent facilitation time. -/
def exC9w : BenchmarkResult :=
  ⟨"T2".data, "B".data, "base".data, 2, none, none, false, "ok".data⟩

/-- Conditions under which one written record round-trips: its string cells
contain no separator and no line terminator, and the error text does not end
in whitespace (the trailing trim of the parser would otherwise eat it). -/
def wellFormedResult (r : BenchmarkResult) : Prop :=
  okStr r.timestamp ∧ okStr r.facilitator ∧ okStr r.network ∧ okStr r.error ∧
    (r.error.getLast?.all fun c => !isWsC c) = true

/-! ## Theorems: basic facts about the JS number model -/

namespace JSVal

@[simp] theorem fin_add_fin (a b : ℝ) : fin a + fin b = fin (a + b) := rfl

@[simp] theorem fin_sub_fin (a b : ℝ) : fin a - fin b = fin (a - b) := by
  show jadd (fin a) (jneg (fin b)) = fin (a - b)
  simp [jadd, jneg, sub_eq_add_neg]

@[simp] theorem fin_mul_fin (a b : ℝ) : fin a * fin b = fin (a * b) := rfl

theorem fin_div_fin {b : ℝ} (a : ℝ) (h : b ≠ 0) : fin a / fin b = fin (a / b) := by
  show jdiv (fin a) (fin b) = fin (a / b)
  simp [jdiv, h]

theorem fin_div_zero_pos {a : ℝ} (h : 0 < a) : fin a / fin 0 = posInf := by
  show jdiv (fin a) (fin 0) = posInf
  simp [jdiv, h, h.ne.symm]

theorem zero_div_zero : fin 0 / fin 0 = nan := by
  show jdiv (fin 0) (fin 0) = nan
  simp [jdiv]

@[simp] theorem nan_add (x : JSVal) : nan + x = nan := by cases x <;> rfl

@[simp] theorem add_nan (x : JSVal) : x + nan = nan := by cases x <;> rfl

@[simp] theorem nan_sub (x : JSVal) : nan - x = nan := by cases x <;> rfl

@[simp] theorem sub_nan (x : JSVal) : x - nan = nan := by cases x <;> rfl

@[simp] theorem nan_mul (x : JSVal) : nan * x = nan := by cases x <;> rfl

@[simp] theorem mul_nan (x : JSVal) : x * nan = nan := by cases x <;> rfl

@[simp] theorem nan_div (x : JSVal) : nan / x = nan := by cases x <;> rfl

@[simp] theorem div_nan (x : JSVal) : x / nan = nan := by cases x <;> rfl

@[simp] theorem jabs_nan : jabs nan = nan := rfl

@[simp] theorem jsqrt_nan : jsqrt nan = nan := rfl

@[simp] theorem jexp_nan : jexp nan = nan := rfl

@[simp] theorem jceil_nan : jceil nan = nan := rfl

@[simp] theorem jpow2_nan : jpow2 nan = nan := rfl

@[simp] theorem jneg_nan : -nan = nan := rfl

@[simp] theorem jltB_nan (x : JSVal) : jltB nan x = false := by cases x <;> rfl

@[simp] theorem jabs_fin (a : ℝ) : jabs (fin a) = fin |a| := rfl

theorem jsqrt_fin {a : ℝ} (h : 0 ≤ a) : jsqrt (fin a) = fin (Real.sqrt a) := by
  simp [jsqrt, not_lt.mpr h]

@[simp] theorem jexp_fin (a : ℝ) : jexp (fin a) = fin (Real.exp a) := rfl

@[simp] theorem jneg_fin (a : ℝ) : -fin a = fin (-a) := rfl

@[simp] theorem jpow2_fin (a : ℝ) : jpow2 (fin a) = fin (a * a) := rfl

@[simp] theorem jceil_fin (a : ℝ) : jceil (fin a) = fin (Int.ceil a) := rfl

@[simp] theorem jltB_fin_fin (a b : ℝ) : jltB (fin a) (fin b) = decide (a < b) := rfl

@[simp] theorem zero_add_jsval (x : JSVal) : fin 0 + x = x := by
  cases x with
  | fin a => rw [fin_add_fin, zero_add]
  | posInf => rfl
  | negInf => rfl
  | nan => rfl

@[simp] theorem jsval_div_one (x : JSVal) : x / fin 1 = x := by
  cases x with
  | fin a => rw [fin_div_fin a one_ne_zero, div_one]
  | posInf => show jdiv posInf (fin 1) = posInf; simp [jdiv]
  | negInf => show jdiv negInf (fin 1) = negInf; simp [jdiv]
  | nan => rfl

end JSVal

open JSVal

/-- The Abramowitz-Stegun evaluation propagates NaN. -/
theorem normalCDFJ_nan : normalCDFJ nan = nan := by
  simp [normalCDFJ]

/-- A singleton group has mean equal to its element. -/
theorem jsMean_singleton (x : JSVal) : jsMean [x] = x := by
  simp [jsMean, jsSum]

/-- The variance expression of a group with fewer than two elements divides
by zero and evaluates to NaN once divided by the group size. -/
theorem jsVar_div_len_nan_of_short (g : List JSVal) (h : g.length < 2) :
    jsVar g / fin (g.length : ℝ) = nan := by
  interval_cases hl : g.length
  · have hg : g = [] := List.length_eq_zero.mp hl
    subst hg
    have h1 : jsVar ([] : List JSVal) = fin 0 := by
      simp only [jsVar, List.foldl_nil, List.length_nil, Nat.cast_zero, fin_sub_fin]
      rw [show (0 : ℝ) - 1 = -1 by norm_num, fin_div_fin 0 (by norm_num : (-1 : ℝ) ≠ 0)]
      norm_num
    rw [h1]
    simpa using zero_div_zero
  · obtain ⟨x, hx⟩ := List.length_eq_one.mp hl
    subst hx
    have h1 : jsVar [x] = nan := by
      have hm : jsMean [x] = x := jsMean_singleton x
      have hnum : fin 0 + jpow2 (x - x) = fin 0 ∨ fin 0 + jpow2 (x - x) = nan := by
        cases x with
        | fin a => left; simp
        | posInf => right; rfl
        | negInf => right; rfl
        | nan => right; rfl
      have hden : (fin ((List.length [x] : ℕ) : ℝ) - fin 1) = fin 0 := by
        simp
      simp only [jsVar, List.foldl_cons, List.foldl_nil, hm, hden]
      rcases hnum with he | he <;> rw [he]
      · exact zero_div_zero
      · exact nan_div _
    rw [h1]
    exact nan_div _

/-- When either group has fewer than two elements, every field of the
welchTTest result is NaN. -/
theorem welchTTest_nan_of_short (g1 g2 : List JSVal)
    (h : g1.length < 2 ∨ g2.length < 2) :
    welchTTest g1 g2 = ⟨nan, nan, nan⟩ := by
  have hsum : jsVar g1 / fin (g1.length : ℝ) + jsVar g2 / fin (g2.length : ℝ) = nan := by
    rcases h with h | h
    · rw [jsVar_div_len_nan_of_short g1 h, nan_add]
    · rw [jsVar_div_len_nan_of_short g2 h, add_nan]
  simp only [welchTTest, hsum, jsqrt_nan, div_nan, jpow2_nan, nan_div, jabs_nan,
    normalCDFJ_nan, sub_nan, mul_nan]

/-! ## Claim C1 -/

/-- Claim C1 as stated is false: on groups where one side has fewer than two
elements, welchTTest does not fail with an InvalidInput error; it silently
returns a result containing NaN.  Concretely, welchTTest([5], [1, 2, 3])
returns NaN for the t-statistic, the degrees of freedom and the p-value. -/
theorem claim_C1_counterexample :
    welchTTest [fin 5] [fin 1, fin 2, fin 3] = ⟨nan, nan, nan⟩ :=
  welchTTest_nan_of_short _ _ (Or.inl (by simp))

/-- Claim C1, amended: for every pair of input groups where at least one
group has fewer than 2 elements, welchTTest does not fail; it silently
returns a result whose t-statistic, degrees of freedom and p-value are all
NaN (the spec's InvalidInput requirement is a directive to implementers that
the reference code does not satisfy). -/
theorem claim_C1 (g1 g2 : List ℝ) (h : g1.length < 2 ∨ g2.length < 2) :
    (welchTTest (g1.map fin) (g2.map fin)).t = nan ∧
      (welchTTest (g1.map fin) (g2.map fin)).df = nan ∧
      (welchTTest (g1.map fin) (g2.map fin)).pValue = nan := by
  have h2 : (g1.map fin).length < 2 ∨ (g2.map fin).length < 2 := by
    simpa using h
  rw [welchTTest_nan_of_short _ _ h2]
  exact ⟨rfl, rfl, rfl⟩

/-- Witness for claim C1 at the concrete groups [1] and [1, 2]. -/
theorem claim_C1_witness :
    (([(1 : ℝ)].length < 2 ∨ [(1 : ℝ), 2].length < 2) ∧
      (welchTTest ([(1 : ℝ)].map fin) ([(1 : ℝ), 2].map fin)).pValue = nan) :=
  ⟨Or.inl (by simp), (claim_C1 [1] [1, 2] (Or.inl (by simp))).2.2⟩

/-! ## Claim C2 -/

/-- Claim C2 as stated is false: calculateRequiredSampleSize(100, 0) does
not fail with an InvalidInput error; it silently returns Infinity. -/
theorem claim_C2_counterexample :
    calculateRequiredSampleSize (fin 100) (fin 0) = posInf := by
  have h1 : jpow2 (fin (0 : ℝ)) = fin 0 := by simp
  have h2 : fin 2 * jpow2 (fin 1.96 + fin 0.84) * jpow2 (fin (100 : ℝ)) =
      fin (2 * ((1.96 + 0.84) * (1.96 + 0.84)) * (100 * 100)) := by
    simp
  rw [calculateRequiredSampleSize, h1, h2, fin_div_zero_pos (by norm_num)]
  rfl

/-- Claim C2, amended: for every nonzero stdDev, calling the sample-size
planner with minDetectableDiff = 0 does not fail; it silently returns
Infinity (for stdDev = 0 it returns NaN instead). -/
theorem claim_C2 (s : ℝ) (h : s ≠ 0) :
    calculateRequiredSampleSize (fin s) (fin 0) = posInf := by
  have h1 : jpow2 (fin (0 : ℝ)) = fin 0 := by simp
  have h2 : fin 2 * jpow2 (fin 1.96 + fin 0.84) * jpow2 (fin s) =
      fin (2 * ((1.96 + 0.84) * (1.96 + 0.84)) * (s * s)) := by
    simp
  have hpos : (0 : ℝ) < 2 * ((1.96 + 0.84) * (1.96 + 0.84)) * (s * s) := by
    have : 0 < s * s := mul_self_pos.mpr h
    nlinarith
  rw [calculateRequiredSampleSize, h1, h2, fin_div_zero_pos hpos]
  rfl

/-- Witness for claim C2 at stdDev = 7. -/
theorem claim_C2_witness :
    ((7 : ℝ) ≠ 0 ∧ calculateRequiredSampleSize (fin 7) (fin 0) = posInf) :=
  ⟨by norm_num, claim_C2 7 (by norm_num)⟩

/-! ## Claim C8 -/

/-- Claim C8: calculateStats is total and, called on the empty list, returns
a summary in which every field (count, mean, standard deviation, median,
min, max, both quartiles, interquartile range, coefficient of variation,
standard error and both confidence-interval bounds) equals zero. -/
theorem claim_C8 : calculateStats ([] : List ℝ) = ⟨0, 0, 0, 0, 0, 0, 0, 0, 0, 0, 0, 0, 0⟩ := by
  simp [calculateStats]

/-! ## Claim C7 -/

/-- Claim C7: for every non-empty list of values, letting s be its ascending
sorted copy of length n, calculateStats returns the median as the average of
the two central elements for even n and the central element for odd n, the
quartiles at sorted indices floor(n * 0.25) and floor(n * 0.75), and the
interquartile range as their difference. -/
theorem claim_C7 (values s : List ℝ) (hne : values ≠ [])
    (hs : s.Sorted (· ≤ ·)) (hp : s.Perm values) :
    (calculateStats values).median =
        (if values.length % 2 = 0 then
          (s.getD (values.length / 2 - 1) 0 + s.getD (values.length / 2) 0) / 2
        else s.getD (values.length / 2) 0) ∧
      (calculateStats values).q1 = s.getD ⌊(values.length : ℝ) * 0.25⌋₊ 0 ∧
      (calculateStats values).q3 = s.getD ⌊(values.length : ℝ) * 0.75⌋₊ 0 ∧
      (calculateStats values).iqr = (calculateStats values).q3 - (calculateStats values).q1 := by
  have hlen : ¬ values.length = 0 := by
    simpa [List.length_eq_zero] using hne
  have hsort : List.insertionSort (· ≤ ·) values = s :=
    List.eq_of_perm_of_sorted ((List.perm_insertionSort _ values).trans hp.symm)
      (List.sorted_insertionSort _ values) hs
  simp only [calculateStats, if_neg hlen, hsort]
  exact ⟨trivial, trivial, trivial, trivial⟩

/-- Witness for claim C7 at the concrete list [1, 2, 4, 8] (its own sorted
copy). -/
theorem claim_C7_witness :
    (([(1 : ℝ), 2, 4, 8] : List ℝ) ≠ [] ∧
        List.Sorted (· ≤ ·) [(1 : ℝ), 2, 4, 8] ∧
        ([(1 : ℝ), 2, 4, 8] : List ℝ).Perm [(1 : ℝ), 2, 4, 8]) ∧
      ((calculateStats [(1 : ℝ), 2, 4, 8]).median =
          (if ([(1 : ℝ), 2, 4, 8] : List ℝ).length % 2 = 0 then
            (([(1 : ℝ), 2, 4, 8] : List ℝ).getD (([(1 : ℝ), 2, 4, 8] : List ℝ).length / 2 - 1) 0 +
                ([(1 : ℝ), 2, 4, 8] : List ℝ).getD (([(1 : ℝ), 2, 4, 8] : List ℝ).length / 2) 0) / 2
          else ([(1 : ℝ), 2, 4, 8] : List ℝ).getD (([(1 : ℝ), 2, 4, 8] : List ℝ).length / 2) 0) ∧
        (calculateStats [(1 : ℝ), 2, 4, 8]).q1 =
          ([(1 : ℝ), 2, 4, 8] : List ℝ).getD ⌊(([(1 : ℝ), 2, 4, 8] : List ℝ).length : ℝ) * 0.25⌋₊ 0 ∧
        (calculateStats [(1 : ℝ), 2, 4, 8]).q3 =
          ([(1 : ℝ), 2, 4, 8] : List ℝ).getD ⌊(([(1 : ℝ), 2, 4, 8] : List ℝ).length : ℝ) * 0.75⌋₊ 0 ∧
        (calculateStats [(1 : ℝ), 2, 4, 8]).iqr =
          (calculateStats [(1 : ℝ), 2, 4, 8]).q3 - (calculateStats [(1 : ℝ), 2, 4, 8]).q1) :=
  ⟨⟨by simp, by norm_num [List.sorted_cons], List.Perm.refl _⟩,
    claim_C7 [(1 : ℝ), 2, 4, 8] [(1 : ℝ), 2, 4, 8] (by simp)
      (by norm_num [List.sorted_cons]) (List.Perm.refl _)⟩

/-! ## Facts about the analyzeData data flow -/

/-- Membership in the deduplication helper. -/
theorem mem_uniqueFirstAux (x : List Char) :
    ∀ (l seen : List (List Char)), (x ∈ uniqueFirstAux seen l ↔ x ∈ l ∧ x ∉ seen) := by
  intro l
  induction l with
  | nil => intro seen; simp [uniqueFirstAux]
  | cons y ys ih =>
      intro seen
      by_cases hy : y ∈ seen
      · rw [show uniqueFirstAux seen (y :: ys) =
            (if y ∈ seen then uniqueFirstAux seen ys else y :: uniqueFirstAux (y :: seen) ys)
            from rfl, if_pos hy, ih seen]
        constructor
        · rintro ⟨h1, h2⟩
          exact ⟨List.mem_cons_of_mem _ h1, h2⟩
        · rintro ⟨h1, h2⟩
          rcases List.mem_cons.mp h1 with rfl | h
          · exact absurd hy h2
          · exact ⟨h, h2⟩
      · rw [show uniqueFirstAux seen (y :: ys) =
            (if y ∈ seen then uniqueFirstAux seen ys else y :: uniqueFirstAux (y :: seen) ys)
            from rfl, if_neg hy]
        constructor
        · intro hm
          rcases List.mem_cons.mp hm with rfl | hm2
          · exact ⟨List.mem_cons_self _ _, hy⟩
          · obtain ⟨h1, h2⟩ := (ih (y :: seen)).mp hm2
            exact ⟨List.mem_cons_of_mem _ h1, fun hx => h2 (List.mem_cons_of_mem _ hx)⟩
        · rintro ⟨h1, h2⟩
          rcases List.mem_cons.mp h1 with rfl | h
          · exact List.mem_cons_self _ _
          · by_cases hxy : x = y
            · subst hxy; exact List.mem_cons_self _ _
            · refine List.mem_cons_of_mem _ ((ih (y :: seen)).mpr ⟨h, ?_⟩)
              intro hx
              rcases List.mem_cons.mp hx with h3 | h3
              · exact hxy h3
              · exact h2 h3

/-- A facilitator appears in the analysis exactly when it has at least one
successful record in the batch. -/
theorem mem_facilitatorsOf (rows : List BenchmarkRow) (f : List Char) :
    f ∈ facilitatorsOf rows ↔ ∃ r ∈ rows, r.success = true ∧ r.facilitator = f := by
  rw [facilitatorsOf, uniqueFirst, mem_uniqueFirstAux]
  simp only [List.not_mem_nil, not_false_iff, and_true, List.mem_map, successfulData,
    List.mem_filter]
  constructor
  · rintro ⟨r, ⟨hr, hs⟩, hfac⟩
    exact ⟨r, hr, hs, hfac⟩
  · rintro ⟨r, hr, hs, hfac⟩
    exact ⟨r, ⟨hr, hs⟩, hfac⟩

/-! ## Claim C3 -/

/-- Claim C3 as stated is false: in the batch exC3 every sample of
facilitator A fails, and the comparative report omits A entirely (its
facilitator list contains only B) instead of including A marked as no
data. -/
theorem claim_C3_counterexample :
    ("A".data ∉ facilitatorsOf exC3) ∧ "B".data ∈ facilitatorsOf exC3 := by decide

/-- Claim C3, amended: a facilitator all of whose samples fail is omitted
from the comparative report entirely (it is absent from the facilitator
list), it does not appear in the ranking, and the ranking of the remaining
facilitators is still computed (it is a permutation of the facilitator
list). -/
theorem claim_C3 (rows : List BenchmarkRow) (f : List Char)
    (h : ∀ r ∈ rows, r.facilitator = f → r.success = false) :
    f ∉ facilitatorsOf rows ∧ f ∉ rankingOf rows ∧
      (rankingOf rows).Perm (facilitatorsOf rows) := by
  have hperm : (rankingOf rows).Perm (facilitatorsOf rows) :=
    List.perm_insertionSort _ _
  have hnot : f ∉ facilitatorsOf rows := by
    intro hf
    obtain ⟨r, hr, hs, hfac⟩ := (mem_facilitatorsOf rows f).mp hf
    have hfs := h r hr hfac
    rw [hs] at hfs
    simp at hfs
  exact ⟨hnot, fun hf => hnot (hperm.subset hf), hperm⟩

/-- Witness for claim C3 at the batch exC3w and facilitator A. -/
theorem claim_C3_witness :
    (∀ r ∈ exC3w, r.facilitator = "A".data → r.success = false) ∧
      ("A".data ∉ facilitatorsOf exC3w ∧ "A".data ∉ rankingOf exC3w ∧
        (rankingOf exC3w).Perm (facilitatorsOf exC3w)) :=
  ⟨by decide, claim_C3 exC3w "A".data (by decide)⟩

/-! ## Claim C4 -/

/-- Claim C4 as stated is false: in the batch exC4 facilitator A has two
successful samples, one of them with facilitationMs absent, and the
facilitation-time array of analyzeData still has length 2 (the claim
predicts 1: the absent sample excluded), while the roundtrip array also has
length 2 and the overall success count is 2. -/
theorem claim_C4_counterexample :
    (facilitationTimesOf exC4 "A".data).length = 2 ∧
      ¬ (facilitationTimesOf exC4 "A".data).length = 1 ∧
      (roundtripTimesOf exC4 "A".data).length = 2 ∧ successCount exC4 = 2 := by decide

/-- Claim C4, amended: in analyzeData a successful sample with
facilitationMs absent is NOT excluded from the facilitation-time
statistics: it contributes to that metric count n (its null cell stays in
the mapped array, coerced to 0 by JS arithmetic), and it likewise
contributes to the roundtrip-time statistics and to the overall success
count.  (The null-filtering exclusion described by the spec appears only in
the benchmark driver summary, not in the analysis script.) -/
theorem claim_C4 (pre post : List BenchmarkRow) (r0 : BenchmarkRow) (f : List Char)
    (hs : r0.success = true) (hf : r0.facilitator = f)
    (_hnull : r0.facilitationMs = CsvNum.nullV) :
    (facilitationTimesOf (pre ++ r0 :: post) f).length =
        (facilitationTimesOf (pre ++ post) f).length + 1 ∧
      (roundtripTimesOf (pre ++ r0 :: post) f).length =
        (roundtripTimesOf (pre ++ post) f).length + 1 ∧
      successCount (pre ++ r0 :: post) = successCount (pre ++ post) + 1 := by
  have hrows : facilitatorRows (pre ++ r0 :: post) f =
      facilitatorRows pre f ++ r0 :: facilitatorRows post f := by
    simp [facilitatorRows, successfulData, List.filter_append, List.filter_cons, hs, hf]
  have hrows2 : facilitatorRows (pre ++ post) f =
      facilitatorRows pre f ++ facilitatorRows post f := by
    simp [facilitatorRows, successfulData, List.filter_append]
  have hsucc : successfulData (pre ++ r0 :: post) =
      successfulData pre ++ r0 :: successfulData post := by
    simp [successfulData, List.filter_append, List.filter_cons, hs]
  have hsucc2 : successfulData (pre ++ post) = successfulData pre ++ successfulData post := by
    simp [successfulData, List.filter_append]
  refine ⟨?_, ?_, ?_⟩ <;>
    (simp [facilitationTimesOf, roundtripTimesOf, successCount, hrows, hrows2, hsucc, hsucc2,
      List.length_append]) <;> omega

/-- Witness for claim C4: the null-facilitation successful sample of exC4
contributes one entry to each count. -/
theorem claim_C4_witness :
    ((mkRow "A".data true CsvNum.nullV (CsvNum.intVal 50)).success = true ∧
        (mkRow "A".data true CsvNum.nullV (CsvNum.intVal 50)).facilitator = "A".data ∧
        (mkRow "A".data true CsvNum.nullV (CsvNum.intVal 50)).facilitationMs = CsvNum.nullV) ∧
      ((facilitationTimesOf ([mkRow "A".data true (CsvNum.intVal 100) (CsvNum.intVal 60)] ++
            mkRow "A".data true CsvNum.nullV (CsvNum.intVal 50) :: []) "A".data).length =
          (facilitationTimesOf ([mkRow "A".data true (CsvNum.intVal 100) (CsvNum.intVal 60)] ++
            []) "A".data).length + 1 ∧
        (roundtripTimesOf ([mkRow "A".data true (CsvNum.intVal 100) (CsvNum.intVal 60)] ++
            mkRow "A".data true CsvNum.nullV (CsvNum.intVal 50) :: []) "A".data).length =
          (roundtripTimesOf ([mkRow "A".data true (CsvNum.intVal 100) (CsvNum.intVal 60)] ++
            []) "A".data).length + 1 ∧
        successCount ([mkRow "A".data true (CsvNum.intVal 100) (CsvNum.intVal 60)] ++
            mkRow "A".data true CsvNum.nullV (CsvNum.intVal 50) :: []) =
          successCount ([mkRow "A".data true (CsvNum.intVal 100) (CsvNum.intVal 60)] ++ []) + 1) :=
  ⟨by decide,
    claim_C4 [mkRow "A".data true (CsvNum.intVal 100) (CsvNum.intVal 60)] []
      (mkRow "A".data true CsvNum.nullV (CsvNum.intVal 50)) "A".data rfl rfl rfl⟩

/-! ## Claim C5 -/

/-- Every unordered pair of distinct list members is visited by the nested
pair loops in one of the two orders. -/
theorem allPairs_mem_or {α : Type} {a b : α} (hne : a ≠ b) :
    ∀ (l : List α), a ∈ l → b ∈ l →
      ((a, b) ∈ allPairs l ∨ (b, a) ∈ allPairs l) := by
  intro l
  induction l with
  | nil => intro ha; exact absurd ha (List.not_mem_nil a)
  | cons x xs ih =>
      intro ha hb
      rcases List.mem_cons.mp ha with rfl | ha2
      · rcases List.mem_cons.mp hb with rfl | hb2
        · exact absurd rfl hne
        · left
          simp only [allPairs, List.mem_append]
          exact Or.inl (List.mem_map.mpr ⟨b, hb2, rfl⟩)
      · rcases List.mem_cons.mp hb with rfl | hb2
        · right
          simp only [allPairs, List.mem_append]
          exact Or.inl (List.mem_map.mpr ⟨a, ha2, rfl⟩)
        · rcases ih ha2 hb2 with h | h
          · left
            simp only [allPairs, List.mem_append]
            exact Or.inr h
          · right
            simp only [allPairs, List.mem_append]
            exact Or.inr h

/-- Every comparison attached to a pair is the welchTTest result of that
pair of data arrays. -/
theorem pairsOf_mem_eq (rows : List BenchmarkRow) (f1 f2 : List Char) (r : TTestResult)
    (h : (f1, f2, r) ∈ pairsOf rows) :
    r = welchTTest (dataOf rows f1) (dataOf rows f2) := by
  obtain ⟨p, hp, heq⟩ := List.mem_map.mp h
  simp only [Prod.mk.injEq] at heq
  obtain ⟨h1, h2, h3⟩ := heq
  subst h1
  subst h2
  exact h3.symm

/-- Claim C5 as stated is false: in the batch exC5 facilitator A has a
single facilitation value, yet the pair (A, B) is not skipped; analyzeData
computes and attaches a welchTTest result for it, whose p-value is NaN. -/
theorem claim_C5_counterexample :
    ("A".data, "B".data, welchTTest (dataOf exC5 "A".data) (dataOf exC5 "B".data)) ∈
        pairsOf exC5 ∧
      (dataOf exC5 "A".data).length = 1 ∧
      (welchTTest (dataOf exC5 "A".data) (dataOf exC5 "B".data)).pValue = JSVal.nan := by
  have hfac : facilitatorsOf exC5 = ["A".data, "B".data] := by decide
  have hlen : (dataOf exC5 "A".data).length = 1 := by
    rw [dataOf, List.length_map]
    decide
  refine ⟨?_, hlen, ?_⟩
  · exact List.mem_map.mpr ⟨("A".data, "B".data), by rw [hfac]; decide, rfl⟩
  · rw [welchTTest_nan_of_short _ _ (Or.inl (by rw [hlen]; norm_num))]

/-- Claim C5, amended: analyzeData runs the significance tester on every
unordered pair of facilitators regardless of group size and attaches its
result; no pair is skipped or flagged, and a pair where a side has fewer
than 2 values receives a NaN p-value instead. -/
theorem claim_C5 (rows : List BenchmarkRow) (f1 f2 : List Char)
    (h1 : f1 ∈ facilitatorsOf rows) (h2 : f2 ∈ facilitatorsOf rows) (hne : f1 ≠ f2) :
    ((f1, f2, welchTTest (dataOf rows f1) (dataOf rows f2)) ∈ pairsOf rows ∨
        (f2, f1, welchTTest (dataOf rows f2) (dataOf rows f1)) ∈ pairsOf rows) ∧
      (∀ r, (f1, f2, r) ∈ pairsOf rows → r = welchTTest (dataOf rows f1) (dataOf rows f2)) ∧
      ((dataOf rows f1).length < 2 ∨ (dataOf rows f2).length < 2 →
        (welchTTest (dataOf rows f1) (dataOf rows f2)).pValue = JSVal.nan) := by
  refine ⟨?_, ?_, ?_⟩
  · rcases allPairs_mem_or hne _ h1 h2 with h | h
    · exact Or.inl (List.mem_map.mpr ⟨(f1, f2), h, rfl⟩)
    · exact Or.inr (List.mem_map.mpr ⟨(f2, f1), h, rfl⟩)
  · intro r hr
    exact pairsOf_mem_eq rows f1 f2 r hr
  · intro hlen
    rw [welchTTest_nan_of_short _ _ hlen]

/-- Witness for claim C5 at the batch exC5w and the pair (A, B). -/
theorem claim_C5_witness :
    ("A".data ∈ facilitatorsOf exC5w ∧ "B".data ∈ facilitatorsOf exC5w ∧
        "A".data ≠ "B".data) ∧
      ((("A".data, "B".data,
            welchTTest (dataOf exC5w "A".data) (dataOf exC5w "B".data)) ∈ pairsOf exC5w ∨
          ("B".data, "A".data,
            welchTTest (dataOf exC5w "B".data) (dataOf exC5w "A".data)) ∈ pairsOf exC5w) ∧
        (∀ r, ("A".data, "B".data, r) ∈ pairsOf exC5w →
          r = welchTTest (dataOf exC5w "A".data) (dataOf exC5w "B".data)) ∧
        ((dataOf exC5w "A".data).length < 2 ∨ (dataOf exC5w "B".data).length < 2 →
          (welchTTest (dataOf exC5w "A".data) (dataOf exC5w "B".data)).pValue = JSVal.nan)) :=
  ⟨⟨by decide, by decide, by decide⟩,
    claim_C5 exC5w "A".data "B".data (by decide) (by decide) (by decide)⟩

/-! ## Real-number analysis of the Abramowitz-Stegun approximation -/

/-- The Horner polynomial of the approximation is nonnegative for
nonnegative arguments. -/
theorem AS_poly_nonneg {t : ℝ} (h0 : 0 ≤ t) :
    0 ≤ (((1.061405429 * t + -1.453152027) * t + 1.421413741) * t + -0.284496736) * t +
      0.254829592 := by
  nlinarith [sq_nonneg (2.122810858 * t - 1.453152027), sq_nonneg (1.848 * t - 0.284496736),
    mul_nonneg h0 h0, mul_nonneg (mul_nonneg h0 h0) h0,
    mul_nonneg (mul_nonneg h0 h0) (sq_nonneg (2.122810858 * t - 1.453152027))]

/-- On the unit interval the Horner polynomial is bounded by its value at 1,
the exact rational 0.999999999. -/
theorem AS_poly_le {t : ℝ} (h0 : 0 ≤ t) (h1 : t ≤ 1) :
    (((1.061405429 * t + -1.453152027) * t + 1.421413741) * t + -0.284496736) * t +
      0.254829592 ≤ 0.999999999 := by
  have hS : 0 ≤ 0.745170407 + 1.029667143 * t + -0.391746598 * t ^ 2 + 1.061405429 * t ^ 3 := by
    nlinarith [mul_nonneg h0 h0, mul_nonneg (mul_nonneg h0 h0) h0,
      mul_nonneg (by linarith : (0 : ℝ) ≤ 1 - t) (by linarith : (0 : ℝ) ≤ 1 + t)]
  nlinarith [mul_nonneg (by linarith : (0 : ℝ) ≤ 1 - t) hS]

/-- Product of a bounded nonnegative value with two factors from the unit
interval stays below the bound. -/
theorem mul3_le {P t E Q : ℝ} (hP0 : 0 ≤ P) (hPQ : P ≤ Q) (ht0 : 0 ≤ t) (ht1 : t ≤ 1)
    (hE1 : E ≤ 1) : P * t * E ≤ Q :=
  calc P * t * E ≤ P * t * 1 := mul_le_mul_of_nonneg_left hE1 (mul_nonneg hP0 ht0)
    _ = P * t := mul_one _
    _ ≤ P * 1 := mul_le_mul_of_nonneg_left ht1 hP0
    _ = P := mul_one _
    _ ≤ Q := hPQ

/-- The approximation stays within the unit interval. -/
theorem normalCDFR_bounds (x : ℝ) : 0 ≤ normalCDFR x ∧ normalCDFR x ≤ 1 := by
  have hw0 : (0 : ℝ) ≤ |x| / Real.sqrt 2 := by positivity
  have hdpos : (0 : ℝ) < 1 + 0.3275911 * (|x| / Real.sqrt 2) := by positivity
  have ht0 : (0 : ℝ) ≤ 1 / (1 + 0.3275911 * (|x| / Real.sqrt 2)) := by positivity
  have ht1 : 1 / (1 + 0.3275911 * (|x| / Real.sqrt 2)) ≤ 1 := by
    rw [div_le_one hdpos]
    nlinarith
  have hP0 := AS_poly_nonneg ht0
  have hP1 := AS_poly_le ht0 ht1
  have hE0 : (0 : ℝ) < Real.exp (-(|x| / Real.sqrt 2) * (|x| / Real.sqrt 2)) := Real.exp_pos _
  have hE1 : Real.exp (-(|x| / Real.sqrt 2) * (|x| / Real.sqrt 2)) ≤ 1 := by
    rw [Real.exp_le_one_iff]
    nlinarith [mul_nonneg hw0 hw0]
  simp only [normalCDFR]
  set E := Real.exp (-(|x| / Real.sqrt 2) * (|x| / Real.sqrt 2)) with hE
  set t := 1 / (1 + 0.3275911 * (|x| / Real.sqrt 2)) with htd
  set P := (((1.061405429 * t + -1.453152027) * t + 1.421413741) * t + -0.284496736) * t +
    0.254829592 with hP
  have hprod0 : 0 ≤ P * t * E := mul_nonneg (mul_nonneg hP0 ht0) hE0.le
  have hprod1 : P * t * E ≤ 0.999999999 := mul3_le hP0 hP1 ht0 ht1 hE1
  clear_value P t E
  by_cases hx : x < 0 <;> simp only [hx, if_true, if_false] <;> constructor <;>
    linarith [hprod0, hprod1]

/-- On nonnegative arguments the approximation is at least one half. -/
theorem normalCDFR_ge_half {x : ℝ} (hx : 0 ≤ x) : 1 / 2 ≤ normalCDFR x := by
  have hw0 : (0 : ℝ) ≤ |x| / Real.sqrt 2 := by positivity
  have hdpos : (0 : ℝ) < 1 + 0.3275911 * (|x| / Real.sqrt 2) := by positivity
  have ht0 : (0 : ℝ) ≤ 1 / (1 + 0.3275911 * (|x| / Real.sqrt 2)) := by positivity
  have ht1 : 1 / (1 + 0.3275911 * (|x| / Real.sqrt 2)) ≤ 1 := by
    rw [div_le_one hdpos]
    nlinarith
  have hP0 := AS_poly_nonneg ht0
  have hP1 := AS_poly_le ht0 ht1
  have hE0 : (0 : ℝ) < Real.exp (-(|x| / Real.sqrt 2) * (|x| / Real.sqrt 2)) := Real.exp_pos _
  have hE1 : Real.exp (-(|x| / Real.sqrt 2) * (|x| / Real.sqrt 2)) ≤ 1 := by
    rw [Real.exp_le_one_iff]
    nlinarith [mul_nonneg hw0 hw0]
  simp only [normalCDFR]
  set E := Real.exp (-(|x| / Real.sqrt 2) * (|x| / Real.sqrt 2)) with hE
  set t := 1 / (1 + 0.3275911 * (|x| / Real.sqrt 2)) with htd
  set P := (((1.061405429 * t + -1.453152027) * t + 1.421413741) * t + -0.284496736) * t +
    0.254829592 with hP
  have hprod0 : 0 ≤ P * t * E := mul_nonneg (mul_nonneg hP0 ht0) hE0.le
  have hprod1 : P * t * E ≤ 0.999999999 := mul3_le hP0 hP1 ht0 ht1 hE1
  clear_value P t E
  simp only [not_lt.mpr hx, if_false]
  linarith [hprod0, hprod1]

/-! ## The finite path through welchTTest -/

/-- On finite arguments the JS evaluation of the approximation computes the
real-number formula. -/
theorem normalCDFJ_fin (v : ℝ) : normalCDFJ (fin v) = fin (normalCDFR v) := by
  have hs2 : jsqrt (fin 2) = fin (Real.sqrt 2) := jsqrt_fin (by norm_num)
  have hs2ne : Real.sqrt 2 ≠ 0 := (Real.sqrt_pos.mpr (by norm_num)).ne'
  have hden : (1 : ℝ) + 0.3275911 * (|v| / Real.sqrt 2) ≠ 0 := by positivity
  by_cases hv : v < 0 <;>
    simp only [normalCDFJ, normalCDFR, jltB_fin_fin, hv, decide_True, decide_False,
      if_true, if_false, Bool.false_eq_true, jabs_fin, hs2, fin_div_fin _ hs2ne,
      fin_mul_fin, fin_add_fin, fin_div_fin _ hden, jneg_fin, jexp_fin, fin_sub_fin]

/-- Folding JS addition over finite values computes the real fold. -/
theorem foldl_add_map_fin (l : List ℝ) : ∀ (a : ℝ),
    (l.map fin).foldl (· + ·) (fin a) = fin (l.foldl (· + ·) a) := by
  induction l with
  | nil => intro a; rfl
  | cons x xs ih =>
      intro a
      simp only [List.map_cons, List.foldl_cons, fin_add_fin]
      exact ih (a + x)

/-- On finite values the JS mean computes the real mean. -/
theorem jsMean_map_fin (l : List ℝ) (h : l ≠ []) : jsMean (l.map fin) = fin (meanR l) := by
  have hn : ((l.length : ℝ)) ≠ 0 :=
    Nat.cast_ne_zero.mpr (fun h0 => h (List.length_eq_zero.mp h0))
  rw [jsMean, jsSum, List.length_map, foldl_add_map_fin, fin_div_fin _ hn, meanR]

/-- Folding the squared-deviation accumulator over finite values computes
the real fold. -/
theorem foldl_sq_map_fin (l : List ℝ) (m : ℝ) : ∀ (a : ℝ),
    (l.map fin).foldl (fun s v => s + jpow2 (v - fin m)) (fin a) =
      fin (l.foldl (fun s v => s + (v - m) ^ 2) a) := by
  induction l with
  | nil => intro a; rfl
  | cons x xs ih =>
      intro a
      simp only [List.map_cons, List.foldl_cons, fin_sub_fin, jpow2_fin, fin_add_fin]
      rw [show a + (x - m) * (x - m) = a + (x - m) ^ 2 by ring]
      exact ih (a + (x - m) ^ 2)

/-- On finite values the JS sample variance computes the real sample
variance when the group has at least two elements. -/
theorem jsVar_map_fin (l : List ℝ) (h : 2 ≤ l.length) : jsVar (l.map fin) = fin (varR l) := by
  have hne : l ≠ [] := by
    intro he
    rw [he] at h
    simp at h
  have hden : ((l.length : ℝ) - 1) ≠ 0 := by
    have h2 : (2 : ℝ) ≤ (l.length : ℝ) := by exact_mod_cast h
    linarith
  rw [jsVar, List.length_map]
  simp only [jsMean_map_fin l hne]
  rw [foldl_sq_map_fin, fin_sub_fin, fin_div_fin _ hden, varR]

/-- The squared-deviation fold is nonnegative from a nonnegative seed. -/
theorem foldl_sq_nonneg (l : List ℝ) (m : ℝ) : ∀ (a : ℝ), 0 ≤ a →
    0 ≤ l.foldl (fun s v => s + (v - m) ^ 2) a := by
  induction l with
  | nil => intro a ha; exact ha
  | cons x xs ih =>
      intro a ha
      exact ih _ (add_nonneg ha (sq_nonneg _))

/-- The real sample variance is nonnegative for groups of two or more. -/
theorem varR_nonneg (l : List ℝ) (h : 2 ≤ l.length) : 0 ≤ varR l := by
  rw [varR]
  apply div_nonneg (foldl_sq_nonneg l (meanR l) 0 le_rfl)
  have h2 : (2 : ℝ) ≤ (l.length : ℝ) := by exact_mod_cast h
  linarith

/-- On two finite groups with at least two elements each and positive
standard-error radicand, welchTTest computes exactly the textbook Welch
formulas with the normal-CDF p-value approximation. -/
theorem welchTTest_fin_eq (g1 g2 : List ℝ) (h1 : 2 ≤ g1.length) (h2 : 2 ≤ g2.length)
    (hse : 0 < varR g1 / g1.length + varR g2 / g2.length) :
    welchTTest (g1.map fin) (g2.map fin) =
      ⟨fin ((meanR g1 - meanR g2) /
          Real.sqrt (varR g1 / g1.length + varR g2 / g2.length)),
        fin ((varR g1 / g1.length + varR g2 / g2.length) ^ 2 /
          ((varR g1 / g1.length) ^ 2 / (g1.length - 1) +
            (varR g2 / g2.length) ^ 2 / (g2.length - 1))),
        fin (2 * (1 - normalCDFR |(meanR g1 - meanR g2) /
          Real.sqrt (varR g1 / g1.length + varR g2 / g2.length)|))⟩ := by
  have hne1 : g1 ≠ [] := by
    intro he; rw [he] at h1; simp at h1
  have hne2 : g2 ≠ [] := by
    intro he; rw [he] at h2; simp at h2
  have hn1 : ((g1.length : ℝ)) ≠ 0 :=
    Nat.cast_ne_zero.mpr (fun h0 => hne1 (List.length_eq_zero.mp h0))
  have hn2 : ((g2.length : ℝ)) ≠ 0 :=
    Nat.cast_ne_zero.mpr (fun h0 => hne2 (List.length_eq_zero.mp h0))
  have hc1 : (2 : ℝ) ≤ (g1.length : ℝ) := by exact_mod_cast h1
  have hc2 : (2 : ℝ) ≤ (g2.length : ℝ) := by exact_mod_cast h2
  have hn1d : (0 : ℝ) < (g1.length : ℝ) - 1 := by linarith
  have hn2d : (0 : ℝ) < (g2.length : ℝ) - 1 := by linarith
  have hv1nn : 0 ≤ varR g1 / (g1.length : ℝ) :=
    div_nonneg (varR_nonneg g1 h1) (by positivity)
  have hv2nn : 0 ≤ varR g2 / (g2.length : ℝ) :=
    div_nonneg (varR_nonneg g2 h2) (by positivity)
  have hsqrtne : Real.sqrt (varR g1 / g1.length + varR g2 / g2.length) ≠ 0 :=
    (Real.sqrt_pos.mpr hse).ne'
  have hDpos : (0 : ℝ) <
      (varR g1 / g1.length * (varR g1 / g1.length)) / ((g1.length : ℝ) - 1) +
        (varR g2 / g2.length * (varR g2 / g2.length)) / ((g2.length : ℝ) - 1) := by
    rcases lt_or_le 0 (varR g1 / (g1.length : ℝ)) with hp | hz
    · exact add_pos_of_pos_of_nonneg (div_pos (mul_pos hp hp) hn1d)
        (div_nonneg (mul_nonneg hv2nn hv2nn) hn2d.le)
    · have hv1z : varR g1 / (g1.length : ℝ) = 0 := le_antisymm hz hv1nn
      have hp2 : 0 < varR g2 / (g2.length : ℝ) := by
        rcases lt_or_le 0 (varR g2 / (g2.length : ℝ)) with h | h
        · exact h
        · exfalso
          have : varR g2 / (g2.length : ℝ) = 0 := le_antisymm h hv2nn
          rw [hv1z, this] at hse
          simp at hse
      exact add_pos_of_nonneg_of_pos (div_nonneg (mul_nonneg hv1nn hv1nn) hn1d.le)
        (div_pos (mul_pos hp2 hp2) hn2d)
  simp only [welchTTest, List.length_map, jsVar_map_fin g1 h1, jsVar_map_fin g2 h2,
    jsMean_map_fin g1 hne1, jsMean_map_fin g2 hne2]
  rw [fin_div_fin (varR g1) hn1, fin_div_fin (varR g2) hn2]
  simp only [fin_add_fin, fin_sub_fin]
  rw [jsqrt_fin hse.le]
  rw [fin_div_fin (meanR g1 - meanR g2) hsqrtne]
  simp only [jpow2_fin, jabs_fin, normalCDFJ_fin]
  rw [fin_div_fin (varR g1 / ↑g1.length * (varR g1 / ↑g1.length)) hn1d.ne',
    fin_div_fin (varR g2 / ↑g2.length * (varR g2 / ↑g2.length)) hn2d.ne']
  rw [fin_add_fin, fin_div_fin _ hDpos.ne']
  simp only [fin_sub_fin, fin_mul_fin]
  norm_num [pow_two]

/-! ## Claim C6 -/

/-- Claim C6: for every pair of groups each with at least 2 elements and
positive standard error, welchTTest returns t = (meanA - meanB) /
sqrt(varA/nA + varB/nB) with sample variances using divisor n - 1, the
Welch-Satterthwaite degrees of freedom, and the two-tailed p-value
2 * (1 - Phi(|t|)) with Phi the Abramowitz-Stegun approximation of the
standard normal CDF. -/
theorem claim_C6 (g1 g2 : List ℝ) (h1 : 2 ≤ g1.length) (h2 : 2 ≤ g2.length)
    (hse : 0 < Real.sqrt (varR g1 / g1.length + varR g2 / g2.length)) :
    welchTTest (g1.map fin) (g2.map fin) =
      ⟨fin ((meanR g1 - meanR g2) /
          Real.sqrt (varR g1 / g1.length + varR g2 / g2.length)),
        fin ((varR g1 / g1.length + varR g2 / g2.length) ^ 2 /
          ((varR g1 / g1.length) ^ 2 / (g1.length - 1) +
            (varR g2 / g2.length) ^ 2 / (g2.length - 1))),
        fin (2 * (1 - normalCDFR |(meanR g1 - meanR g2) /
          Real.sqrt (varR g1 / g1.length + varR g2 / g2.length)|))⟩ :=
  welchTTest_fin_eq g1 g2 h1 h2 (Real.sqrt_pos.mp hse)

/-- Witness for claim C6 at the groups [0, 2] and [1, 3]. -/
theorem claim_C6_witness :
    (2 ≤ ([(0 : ℝ), 2] : List ℝ).length ∧ 2 ≤ ([(1 : ℝ), 3] : List ℝ).length ∧
        0 < Real.sqrt (varR [(0 : ℝ), 2] / ([(0 : ℝ), 2] : List ℝ).length +
          varR [(1 : ℝ), 3] / ([(1 : ℝ), 3] : List ℝ).length)) ∧
      welchTTest (([(0 : ℝ), 2] : List ℝ).map fin) (([(1 : ℝ), 3] : List ℝ).map fin) =
        ⟨fin ((meanR [(0 : ℝ), 2] - meanR [(1 : ℝ), 3]) /
            Real.sqrt (varR [(0 : ℝ), 2] / ([(0 : ℝ), 2] : List ℝ).length +
              varR [(1 : ℝ), 3] / ([(1 : ℝ), 3] : List ℝ).length)),
          fin ((varR [(0 : ℝ), 2] / ([(0 : ℝ), 2] : List ℝ).length +
              varR [(1 : ℝ), 3] / ([(1 : ℝ), 3] : List ℝ).length) ^ 2 /
            ((varR [(0 : ℝ), 2] / ([(0 : ℝ), 2] : List ℝ).length) ^ 2 /
                (([(0 : ℝ), 2] : List ℝ).length - 1) +
              (varR [(1 : ℝ), 3] / ([(1 : ℝ), 3] : List ℝ).length) ^ 2 /
                (([(1 : ℝ), 3] : List ℝ).length - 1))),
          fin (2 * (1 - normalCDFR |(meanR [(0 : ℝ), 2] - meanR [(1 : ℝ), 3]) /
            Real.sqrt (varR [(0 : ℝ), 2] / ([(0 : ℝ), 2] : List ℝ).length +
              varR [(1 : ℝ), 3] / ([(1 : ℝ), 3] : List ℝ).length)|))⟩ := by
  have hlen1 : 2 ≤ ([(0 : ℝ), 2] : List ℝ).length := by simp
  have hlen2 : 2 ≤ ([(1 : ℝ), 3] : List ℝ).length := by simp
  have hsum : varR [(0 : ℝ), 2] / ([(0 : ℝ), 2] : List ℝ).length +
      varR [(1 : ℝ), 3] / ([(1 : ℝ), 3] : List ℝ).length = 2 := by
    norm_num [varR, meanR, List.foldl_cons, List.foldl_nil]
  have hse : 0 < Real.sqrt (varR [(0 : ℝ), 2] / ([(0 : ℝ), 2] : List ℝ).length +
      varR [(1 : ℝ), 3] / ([(1 : ℝ), 3] : List ℝ).length) := by
    rw [hsum]
    exact Real.sqrt_pos.mpr (by norm_num)
  exact ⟨⟨hlen1, hlen2, hse⟩, claim_C6 [(0 : ℝ), 2] [(1 : ℝ), 3] hlen1 hlen2 hse⟩

/-! ## Claim C10 -/

/-- Claim C10: for two input groups each with at least 2 elements and
positive standard error, the p-value returned by welchTTest is a finite
value in the interval [0, 1] (the normal-CDF approximation stays inside
[0, 1], and is at least one half on nonnegative arguments). -/
theorem claim_C10 (g1 g2 : List ℝ) (h1 : 2 ≤ g1.length) (h2 : 2 ≤ g2.length)
    (hse : 0 < Real.sqrt (varR g1 / g1.length + varR g2 / g2.length)) :
    ∃ p : ℝ, (welchTTest (g1.map fin) (g2.map fin)).pValue = fin p ∧ 0 ≤ p ∧ p ≤ 1 := by
  rw [welchTTest_fin_eq g1 g2 h1 h2 (Real.sqrt_pos.mp hse)]
  refine ⟨_, rfl, ?_, ?_⟩
  · obtain ⟨_, hb⟩ := normalCDFR_bounds |(meanR g1 - meanR g2) /
      Real.sqrt (varR g1 / g1.length + varR g2 / g2.length)|
    linarith
  · have hhalf := normalCDFR_ge_half (abs_nonneg ((meanR g1 - meanR g2) /
      Real.sqrt (varR g1 / g1.length + varR g2 / g2.length)))
    linarith

/-- Witness for claim C10 at the groups [0, 4] and [1, 2]. -/
theorem claim_C10_witness :
    (2 ≤ ([(0 : ℝ), 4] : List ℝ).length ∧ 2 ≤ ([(1 : ℝ), 2] : List ℝ).length ∧
        0 < Real.sqrt (varR [(0 : ℝ), 4] / ([(0 : ℝ), 4] : List ℝ).length +
          varR [(1 : ℝ), 2] / ([(1 : ℝ), 2] : List ℝ).length)) ∧
      ∃ p : ℝ, (welchTTest (([(0 : ℝ), 4] : List ℝ).map fin)
          (([(1 : ℝ), 2] : List ℝ).map fin)).pValue = fin p ∧ 0 ≤ p ∧ p ≤ 1 := by
  have hlen1 : 2 ≤ ([(0 : ℝ), 4] : List ℝ).length := by simp
  have hlen2 : 2 ≤ ([(1 : ℝ), 2] : List ℝ).length := by simp
  have hsum : varR [(0 : ℝ), 4] / ([(0 : ℝ), 4] : List ℝ).length +
      varR [(1 : ℝ), 2] / ([(1 : ℝ), 2] : List ℝ).length = 4.25 := by
    norm_num [varR, meanR, List.foldl_cons, List.foldl_nil]
  have hse : 0 < Real.sqrt (varR [(0 : ℝ), 4] / ([(0 : ℝ), 4] : List ℝ).length +
      varR [(1 : ℝ), 2] / ([(1 : ℝ), 2] : List ℝ).length) := by
    rw [hsum]
    exact Real.sqrt_pos.mpr (by norm_num)
  exact ⟨⟨hlen1, hlen2, hse⟩, claim_C10 [(0 : ℝ), 4] [(1 : ℝ), 2] hlen1 hlen2 hse⟩


/-! ## Claim C9: the CSV round trip -/

theorem splitOnC_ne_nil (c : Char) : ∀ (l : List Char), splitOnC c l ≠ [] := by
  intro l
  cases l with
  | nil => simp [splitOnC]
  | cons x xs =>
      rw [splitOnC]
      by_cases h : x = c <;> simp [h]

theorem splitOnC_not_mem {c : Char} : ∀ {l : List Char}, c ∉ l → splitOnC c l = [l]
  | [], _ => rfl
  | x :: xs, h => by
      have hx : ¬ x = c := fun he => h (he ▸ List.mem_cons_self x xs)
      have hxs : c ∉ xs := fun hm => h (List.mem_cons_of_mem _ hm)
      rw [splitOnC]
      simp only [splitOnC_not_mem hxs, if_neg hx, List.headD_cons, List.tail_cons]

theorem splitOnC_append {c : Char} : ∀ {l : List Char} (r : List Char), c ∉ l →
    splitOnC c (l ++ c :: r) = l :: splitOnC c r
  | [], r, _ => by
      rw [List.nil_append, splitOnC, if_pos rfl]
  | x :: xs, r, h => by
      have hx : ¬ x = c := fun he => h (he ▸ List.mem_cons_self x xs)
      have hxs : c ∉ xs := fun hm => h (List.mem_cons_of_mem _ hm)
      rw [List.cons_append, splitOnC]
      simp only [splitOnC_append r hxs, if_neg hx, List.headD_cons, List.tail_cons]

theorem joinC_cons {c : Char} {ls : List (List Char)} (l : List Char) (h : ls ≠ []) :
    joinC c (l :: ls) = l ++ c :: joinC c ls := by
  cases ls with
  | nil => exact absurd rfl h
  | cons m t => rfl

theorem splitOnC_joinC {c : Char} : ∀ {ls : List (List Char)}, ls ≠ [] →
    (∀ l ∈ ls, c ∉ l) → splitOnC c (joinC c ls) = ls
  | [], h, _ => absurd rfl h
  | [l], _, h => splitOnC_not_mem (h l (List.mem_singleton_self l))
  | l :: m :: t, _, h => by
      rw [joinC_cons l (List.cons_ne_nil m t),
        splitOnC_append _ (h l (List.mem_cons_self l _)),
        splitOnC_joinC (List.cons_ne_nil m t) (fun b hb => h b (List.mem_cons_of_mem _ hb))]

theorem trimC_wrap {A : List Char} (hne : A ≠ [])
    (hhead : ∀ ch, A.head? = some ch → isWsC ch = false)
    (hlast : ∀ ch, A.getLast? = some ch → isWsC ch = false) :
    trimC (A ++ ['\n']) = A := by
  obtain ⟨a, A2, rfl⟩ := List.exists_cons_of_ne_nil hne
  have ha : isWsC a = false := hhead a rfl
  rw [trimC]
  have h1 : ((a :: A2) ++ ['\n']).dropWhile isWsC = (a :: A2) ++ ['\n'] := by
    rw [List.cons_append, List.dropWhile_cons]
    simp [ha]
  rw [h1, List.reverse_append]
  have h2 : (['\n'] : List Char).reverse = ['\n'] := rfl
  rw [h2]
  have h3 : (['\n'] ++ (a :: A2).reverse : List Char) = '\n' :: (a :: A2).reverse := rfl
  rw [h3, List.dropWhile_cons]
  have hnl : isWsC '\n' = true := by decide
  rw [hnl]
  simp only [if_true]
  have hrevne : (a :: A2).reverse ≠ [] := by simp
  obtain ⟨b, B, hB⟩ := List.exists_cons_of_ne_nil hrevne
  have hb : isWsC b = false := by
    apply hlast
    rw [List.getLast?_eq_head?_reverse, hB]
    rfl
  rw [hB, List.dropWhile_cons]
  simp only [hb, Bool.false_eq_true, if_false]
  rw [← hB, List.reverse_reverse]

theorem digitChar_ok (d : ℕ) :
    isWsC (digitChar d) = false ∧ digitChar d ≠ ',' ∧ digitChar d ≠ '\n' ∧
      (digitChar d).isDigit = true ∧ digitChar d ≠ '-' ∧ digitChar d ≠ '+' := by
  unfold digitChar
  split <;> decide

theorem charVal_digitChar {d : ℕ} (h : d < 10) : charVal (digitChar d) = d := by
  interval_cases d <;> decide

theorem natToCharsAux_mem : ∀ (fuel n : ℕ) (ch : Char), ch ∈ natToCharsAux fuel n →
    ∃ d, ch = digitChar d := by
  intro fuel
  induction fuel with
  | zero => intro n ch hch; simp [natToCharsAux] at hch
  | succ f ih =>
      intro n ch hch
      rw [natToCharsAux] at hch
      by_cases hn : n < 10
      · rw [if_pos hn] at hch
        exact ⟨n, List.mem_singleton.mp hch⟩
      · rw [if_neg hn] at hch
        rcases List.mem_append.mp hch with h | h
        · exact ih (n / 10) ch h
        · exact ⟨n % 10, List.mem_singleton.mp h⟩

theorem natToChars_ok {n : ℕ} {ch : Char} (h : ch ∈ natToChars n) :
    isWsC ch = false ∧ ch ≠ ',' ∧ ch ≠ '\n' ∧ ch.isDigit = true ∧ ch ≠ '-' ∧ ch ≠ '+' := by
  obtain ⟨d, rfl⟩ := natToCharsAux_mem (n + 1) n ch h
  exact digitChar_ok d

theorem digitsToNat_append (l : List Char) (ch : Char) :
    digitsToNat (l ++ [ch]) = 10 * digitsToNat l + charVal ch := by
  simp [digitsToNat, List.foldl_append]

theorem natToCharsAux_parse : ∀ (fuel n : ℕ), n < fuel →
    digitsToNat (natToCharsAux fuel n) = n := by
  intro fuel
  induction fuel with
  | zero => intro n h; omega
  | succ f ih =>
      intro n h
      rw [natToCharsAux]
      by_cases hn : n < 10
      · rw [if_pos hn]
        have : digitsToNat [digitChar n] = charVal (digitChar n) := by
          simp [digitsToNat]
        rw [this, charVal_digitChar hn]
      · rw [if_neg hn]
        have hdiv : n / 10 < f := by
          have h10 : n / 10 < n := Nat.div_lt_self (by omega) (by omega)
          omega
        rw [digitsToNat_append, ih (n / 10) hdiv, charVal_digitChar (Nat.mod_lt n (by omega))]
        omega

theorem natToChars_parse (n : ℕ) : digitsToNat (natToChars n) = n :=
  natToCharsAux_parse (n + 1) n (Nat.lt_succ_self n)

theorem natToChars_ne_nil (n : ℕ) : natToChars n ≠ [] := by
  rw [natToChars, natToCharsAux]
  by_cases hn : n < 10 <;> simp [hn]

theorem takeWhile_all {p : Char → Bool} : ∀ {l : List Char}, (∀ x ∈ l, p x = true) →
    l.takeWhile p = l := by
  intro l h
  rw [List.takeWhile_eq_self_iff]
  exact fun x hx => h x hx

theorem jsParseInt_natToChars (n : ℕ) : jsParseInt (natToChars n) = CsvNum.intVal n := by
  obtain ⟨ch, rest, hcr⟩ := List.exists_cons_of_ne_nil (natToChars_ne_nil n)
  have hch := natToChars_ok (show ch ∈ natToChars n by rw [hcr]; exact List.mem_cons_self _ _)
  have hdrop : (natToChars n).dropWhile isWsC = ch :: rest := by
    rw [hcr, List.dropWhile_cons]
    simp [hch.1]
  have hdigits : ∀ x ∈ ch :: rest, x.isDigit = true := by
    intro x hx
    have : x ∈ natToChars n := by rw [hcr]; exact hx
    exact (natToChars_ok this).2.2.2.1
  rw [jsParseInt, hdrop]
  simp only [if_neg hch.2.2.2.2.1, if_neg hch.2.2.2.2.2]
  rw [takeWhile_all hdigits, ← hcr]
  simp [natToChars_ne_nil n, natToChars_parse]

theorem mem_joinC {c sep : Char} : ∀ {ls : List (List Char)}, c ∈ joinC sep ls →
    c = sep ∨ ∃ l ∈ ls, c ∈ l
  | [], h => by simp [joinC] at h
  | [l], h => Or.inr ⟨l, List.mem_singleton_self l, by simpa [joinC] using h⟩
  | l :: m :: t, h => by
      rw [joinC_cons l (List.cons_ne_nil m t)] at h
      rcases List.mem_append.mp h with h1 | h1
      · exact Or.inr ⟨l, List.mem_cons_self l _, h1⟩
      · rcases List.mem_cons.mp h1 with rfl | h2
        · exact Or.inl rfl
        · rcases mem_joinC h2 with h3 | ⟨b, hb, hcb⟩
          · exact Or.inl h3
          · exact Or.inr ⟨b, List.mem_cons_of_mem _ hb, hcb⟩

theorem okStr_not_mem {s : List Char} (h : okStr s) : ',' ∉ s ∧ '\n' ∉ s :=
  ⟨fun hm => (h ',' hm).1 rfl, fun hm => (h '\n' hm).2 rfl⟩

theorem optNatChars_ok {o : Option ℕ} {ch : Char} (h : ch ∈ optNatChars o) :
    isWsC ch = false ∧ ch ≠ ',' ∧ ch ≠ '\n' := by
  cases o with
  | none => simp [optNatChars] at h
  | some k =>
      have := natToChars_ok (show ch ∈ natToChars k by simpa [optNatChars] using h)
      exact ⟨this.1, this.2.1, this.2.2.1⟩

theorem boolChars_ok {b : Bool} {ch : Char} (h : ch ∈ boolChars b) :
    isWsC ch = false ∧ ch ≠ ',' ∧ ch ≠ '\n' := by
  cases b with
  | true =>
      rw [show boolChars true = ['t', 'r', 'u', 'e'] from rfl] at h
      fin_cases h <;> decide
  | false =>
      rw [show boolChars false = ['f', 'a', 'l', 's', 'e'] from rfl] at h
      fin_cases h <;> decide

theorem rowFields_no_comma {r : BenchmarkResult} (h : wellFormedResult r) :
    ∀ l ∈ rowFields r, ',' ∉ l := by
  obtain ⟨h1, h2, h3, h4, _⟩ := h
  intro l hl
  simp only [rowFields, List.mem_cons, List.not_mem_nil, or_false] at hl
  rcases hl with rfl | rfl | rfl | rfl | rfl | rfl | rfl | rfl
  · exact (okStr_not_mem h1).1
  · exact (okStr_not_mem h2).1
  · exact (okStr_not_mem h3).1
  · exact fun hm => (natToChars_ok hm).2.1 rfl
  · exact fun hm => (optNatChars_ok hm).2.1 rfl
  · exact fun hm => (optNatChars_ok hm).2.1 rfl
  · exact fun hm => (boolChars_ok hm).2.1 rfl
  · exact (okStr_not_mem h4).1

theorem rowBody_no_newline {r : BenchmarkResult} (h : wellFormedResult r) :
    '\n' ∉ joinC ',' (rowFields r) := by
  obtain ⟨h1, h2, h3, h4, _⟩ := h
  intro hm
  rcases mem_joinC hm with hc | ⟨l, hl, hcl⟩
  · exact absurd hc (by decide)
  · simp only [rowFields, List.mem_cons, List.not_mem_nil, or_false] at hl
    rcases hl with rfl | rfl | rfl | rfl | rfl | rfl | rfl | rfl
    · exact (okStr_not_mem h1).2 hcl
    · exact (okStr_not_mem h2).2 hcl
    · exact (okStr_not_mem h3).2 hcl
    · exact (natToChars_ok hcl).2.2.1 rfl
    · exact (optNatChars_ok hcl).2.2 rfl
    · exact (optNatChars_ok hcl).2.2 rfl
    · exact (boolChars_ok hcl).2.2 rfl
    · exact (okStr_not_mem h4).2 hcl

theorem rowBody_expand (r : BenchmarkResult) :
    joinC ',' (rowFields r) =
      r.timestamp ++ ',' :: (r.facilitator ++ ',' :: (r.network ++ ',' ::
        (natToChars r.sampleNum ++ ',' :: (optNatChars r.facilitationMs ++ ',' ::
          (optNatChars r.roundtripMs ++ ',' :: (boolChars r.success ++ ',' ::
            r.error)))))) := rfl

theorem rowBody_ne_nil (r : BenchmarkResult) : joinC ',' (rowFields r) ≠ [] := by
  rw [rowBody_expand]
  simp

theorem rowBody_last {r : BenchmarkResult} (h : wellFormedResult r) :
    ∀ ch, (joinC ',' (rowFields r)).getLast? = some ch → isWsC ch = false := by
  intro ch hch
  have hre : joinC ',' (rowFields r) =
      (r.timestamp ++ ',' :: (r.facilitator ++ ',' :: (r.network ++ ',' ::
        (natToChars r.sampleNum ++ ',' :: (optNatChars r.facilitationMs ++ ',' ::
          (optNatChars r.roundtripMs ++ ',' :: boolChars r.success)))))) ++
        ',' :: r.error := by
    rw [rowBody_expand]
    simp [List.append_assoc]
  rw [hre, List.getLast?_append_cons] at hch
  cases he : r.error with
  | nil =>
      rw [he] at hch
      have : ch = ',' := by
        have h2 : ((([','] : List Char)).getLast?) = some ',' := rfl
        rw [h2] at hch
        exact (Option.some.injEq _ _ ▸ hch).symm
      rw [this]
      decide
  | cons e es =>
      rw [he, List.getLast?_cons_cons] at hch
      have hlast : r.error.getLast? = some ch := by rw [he]; exact hch
      have hopt := h.2.2.2.2
      rw [hlast] at hopt
      cases hb : isWsC ch with
      | false => rfl
      | true => simp [Option.all, hb] at hopt

theorem parseLine_rowBody {r : BenchmarkResult} (h : wellFormedResult r) :
    parseLine (joinC ',' (rowFields r)) = parsedOf r := by
  have hsplit : splitOnC ',' (joinC ',' (rowFields r)) = rowFields r :=
    splitOnC_joinC (by simp [rowFields]) (rowFields_no_comma h)
  simp only [parseLine, hsplit]
  simp only [rowFields, List.getD_cons_zero, List.getD_cons_succ, parsedOf,
    BenchmarkRow.mk.injEq]
  refine ⟨trivial, trivial, trivial, jsParseInt_natToChars r.sampleNum, ?_, ?_, ?_, trivial⟩
  · cases r.facilitationMs with
    | none => simp [optNatChars]
    | some k => simp [optNatChars, natToChars_ne_nil k, jsParseInt_natToChars]
  · cases r.roundtripMs with
    | none => simp [optNatChars]
    | some k => simp [optNatChars, natToChars_ne_nil k, jsParseInt_natToChars]
  · exact (by decide : ∀ b : Bool, decide (boolChars b = trueChars) = b) r.success

theorem flatten_rows : ∀ (rs : List BenchmarkResult), rs ≠ [] →
    (rs.map resultToCsvRow).flatten =
      joinC '\n' (rs.map (fun r => joinC ',' (rowFields r))) ++ ['\n']
  | [], h => absurd rfl h
  | [r], _ => by simp [resultToCsvRow, joinC]
  | r :: m :: t, _ => by
      have ih := flatten_rows (m :: t) (by simp)
      simp only [List.map_cons, List.flatten_cons] at ih ⊢
      rw [ih, resultToCsvRow]
      rw [joinC_cons (joinC ',' (rowFields r)) (List.cons_ne_nil _ _)]
      simp [List.append_assoc]

theorem csvContent_eq (rs : List BenchmarkResult) (h : rs ≠ []) :
    csvContent rs =
      joinC '\n' (headerChars :: rs.map (fun r => joinC ',' (rowFields r))) ++ ['\n'] := by
  have hmne : rs.map (fun r => joinC ',' (rowFields r)) ≠ [] := by
    simpa using h
  rw [csvContent, flatten_rows rs h, joinC_cons _ hmne]
  simp [List.append_assoc]

theorem joinC_nl_ne_nil : ∀ (bodies : List (List Char)), bodies ≠ [] →
    (∀ b ∈ bodies, b ≠ []) → joinC '\n' bodies ≠ []
  | [], h, _ => absurd rfl h
  | [b], _, h => by simpa [joinC] using h b (List.mem_singleton_self b)
  | b :: m :: t, _, h => by
      rw [joinC_cons b (List.cons_ne_nil m t)]
      simp

theorem joinC_nl_last : ∀ (bodies : List (List Char)), bodies ≠ [] →
    (∀ b ∈ bodies, b ≠ [] ∧ ∀ ch, b.getLast? = some ch → isWsC ch = false) →
    ∀ ch, (joinC '\n' bodies).getLast? = some ch → isWsC ch = false
  | [], h, _ => absurd rfl h
  | [b], _, h => by
      intro ch hch
      exact (h b (List.mem_singleton_self b)).2 ch (by simpa [joinC] using hch)
  | b :: m :: t, _, h => by
      intro ch hch
      rw [joinC_cons b (List.cons_ne_nil m t), List.getLast?_append_cons] at hch
      have hJne : joinC '\n' (m :: t) ≠ [] :=
        joinC_nl_ne_nil (m :: t) (List.cons_ne_nil m t)
          (fun x hx => (h x (List.mem_cons_of_mem _ hx)).1)
      have hre : ('\n' :: joinC '\n' (m :: t) : List Char) =
          ['\n'] ++ joinC '\n' (m :: t) := rfl
      rw [hre, List.getLast?_append_of_ne_nil _ hJne] at hch
      exact joinC_nl_last (m :: t) (List.cons_ne_nil m t)
        (fun x hx => h x (List.mem_cons_of_mem _ hx)) ch hch

/-- Claim C9, amended: writing a batch of records with resultToCsvRow and
re-parsing the file with parseCSV reproduces every field of every record
exactly, including absent (null) numeric fields and the success flag,
PROVIDED the string cells contain no separator and no line terminator and
the error text does not end in whitespace.  The error text is then
reproduced verbatim; the comma-to-semicolon substitution the claim allows
for is performed by the collection scripts at record-creation time, not by
the writer, so resultToCsvRow itself never alters the error. -/
theorem claim_C9 (rs : List BenchmarkResult) (h : ∀ r ∈ rs, wellFormedResult r) :
    parseCSV (csvContent rs) = rs.map parsedOf := by
  cases rs with
  | nil => decide
  | cons r0 rt =>
      have hne : (r0 :: rt : List BenchmarkResult) ≠ [] := by simp
      have hbne : ((r0 :: rt).map fun r => joinC ',' (rowFields r)) ≠ [] := by simp
      have hAne : joinC '\n' (headerChars ::
          (r0 :: rt).map fun r => joinC ',' (rowFields r)) ≠ [] := by
        rw [joinC_cons _ hbne]
        rw [show (headerChars : List Char) = 't' ::
          "imestamp,facilitator,network,sample_num,facilitation_ms,roundtrip_ms,success,error".data
          from rfl]
        simp
      have hhead : ∀ ch, (joinC '\n' (headerChars ::
          (r0 :: rt).map fun r => joinC ',' (rowFields r))).head? = some ch →
          isWsC ch = false := by
        intro ch hch
        rw [joinC_cons _ hbne] at hch
        rw [show (headerChars : List Char) = 't' ::
          "imestamp,facilitator,network,sample_num,facilitation_ms,roundtrip_ms,success,error".data
          from rfl, List.cons_append, List.head?_cons, Option.some.injEq] at hch
        rw [← hch]
        decide
      have hlast : ∀ ch, (joinC '\n' (headerChars ::
          (r0 :: rt).map fun r => joinC ',' (rowFields r))).getLast? = some ch →
          isWsC ch = false := by
        intro ch hch
        rw [joinC_cons _ hbne, List.getLast?_append_of_ne_nil _ ?_] at hch
        · have hre : ('\n' :: joinC '\n' ((r0 :: rt).map fun r => joinC ',' (rowFields r)) :
              List Char) = ['\n'] ++ joinC '\n' ((r0 :: rt).map fun r => joinC ',' (rowFields r)) := rfl
          rw [hre, List.getLast?_append_of_ne_nil _ ?_] at hch
          · refine joinC_nl_last _ hbne ?_ ch hch
            intro b hb
            obtain ⟨r, hr, rfl⟩ := List.mem_map.mp hb
            exact ⟨rowBody_ne_nil r, rowBody_last (h r hr)⟩
          · exact joinC_nl_ne_nil _ hbne (by
              intro b hb
              obtain ⟨r, hr, rfl⟩ := List.mem_map.mp hb
              exact rowBody_ne_nil r)
        · simp
      have hnonl : ∀ l ∈ headerChars :: (r0 :: rt).map fun r => joinC ',' (rowFields r),
          '\n' ∉ l := by
        intro l hl
        rcases List.mem_cons.mp hl with rfl | hl2
        · decide
        · obtain ⟨r, hr, rfl⟩ := List.mem_map.mp hl2
          exact rowBody_no_newline (h r hr)
      rw [parseCSV, csvContent_eq _ hne, trimC_wrap hAne hhead hlast,
        splitOnC_joinC (List.cons_ne_nil _ _) hnonl]
      rw [List.drop_one, List.tail_cons, List.map_map]
      refine List.map_congr_left ?_
      intro r hr
      exact parseLine_rowBody (h r hr)

/-- Claim C9 as stated is false: for a record whose error text contains the
separator, the round trip through resultToCsvRow and parseCSV does not
reproduce the error field, and the parsed error is not the
comma-to-semicolon substitution either; the extra comma shifts the column
split and the error is silently truncated. -/
theorem claim_C9_counterexample :
    (parseCSV (csvContent [exC9])).map (fun r => r.error) ≠ [exC9.error] ∧
      (parseCSV (csvContent [exC9])).map (fun r => r.error) ≠ [substComma exC9.error] := by
  decide

/-- Witness for claim C9 at a well-formed one-record batch with an absent
facilitation time. -/
theorem claim_C9_witness :
    (∀ r ∈ [exC9w], wellFormedResult r) ∧
      parseCSV (csvContent [exC9w]) = [exC9w].map parsedOf := by
  have hw : wellFormedResult exC9w := by
    unfold wellFormedResult okStr
    decide
  have hall : ∀ r ∈ [exC9w], wellFormedResult r := by
    intro r hr
    rw [List.mem_singleton.mp hr]
    exact hw
  exact ⟨hall, claim_C9 [exC9w] hall⟩
